import Mathlib

/-!
Event-stream codec of the `fanotify` Python extension (`src/fanotify.c`).

Shallow embedding of the three codec entry points of the extension module,

* `fanotify_EventOk`   (fanotify.c:327-343),
* `fanotify_EventNext` (fanotify.c:277-311) together with the constructor
  `EventMetadata_init` (fanotify.c:71-92) it calls,
* `fanotify_Response`  (fanotify.c:365-378),

and of the two helper macros `FAN_EVENT_OK` / `FAN_EVENT_NEXT` they expand.  The
macros and the two structs come from `<linux/fanotify.h>`, which the source pulls in
through `#include <sys/fanotify.h>` (fanotify.c:21); their text is quoted next to each
definition.

Modelling conventions
* A Python `bytes` object is a `List Byte`; a C pointer into it is a byte offset.
* `Py_ssize_t` / `long` values are `Int`.  A `bytes` object is never longer than
  `PY_SSIZE_T_MAX`, and `event_len` is a `__u32`, so none of the casts to `long` in
  the macros changes a value; `size_t` arithmetic is reduced modulo `2 ^ 64`.
* The `#` length arguments of `PyArg_ParseTupleAndKeywords` and `Py_BuildValue` are taken
  to carry the length of the bytes object unchanged.
* "Native byte order" is a parameter `order : ByteOrder`; every universal statement is
  proved for both byte orders, concrete evaluations use the little-endian one.
* A C read that would leave the buffer is undefined behaviour and is made visible as the
  outcome `PyResult.undefined`; a `NULL` return with a Python exception set is
  `PyResult.raise`.
* The `#if PY_MAJOR_VERSION >= 3` branch (`"y#"`) is the one modelled.
-/

namespace Fanotify

/-- One byte of a Python `bytes` object. -/
abbrev Byte := Fin 256

/-- Byte order of the host ("native layout"). -/
inductive ByteOrder where
  | little
  | big
  deriving DecidableEq, Repr

/-- Python exceptions the modelled paths can set. `FanotifyError` is the module's own
exception (fanotify.c:422), raised with the message
"Attempted to get NextEvent from event stream that is not OK". -/
inductive PyExc where
  | FanotifyError
  | SystemError
  | OverflowError
  deriving DecidableEq, Repr

/-- Outcome of a call into the extension: a value, `NULL` with an exception set, or
C undefined behaviour (a read outside the buffer). -/
inductive PyResult (α : Type) where
  | ok (v : α)
  | raise (e : PyExc)
  | undefined
  deriving DecidableEq, Repr

/-- The unsigned integer stored in `bs` in the given byte order. -/
def load_uint : ByteOrder → List Byte → Nat
  | .little, bs => bs.foldr (fun b acc => b.val + 256 * acc) 0
  | .big, bs => bs.foldl (fun acc b => 256 * acc + b.val) 0

/-- Little-endian bytes of `n`, `width` of them (the value is reduced mod `256 ^ width`). -/
def store_le : Nat → Nat → List Byte
  | 0, _ => []
  | width + 1, n => Fin.ofNat (n % 256) :: store_le width (n / 256)

/-- The `width` bytes that represent the unsigned integer `n` in the given byte order. -/
def store_uint : ByteOrder → Nat → Nat → List Byte
  | .little, width, n => store_le width n
  | .big, width, n => (store_le width n).reverse

/-- Reinterpret a 32-bit pattern as a two's complement `__s32` / `int`. -/
def to_s32 (n : Nat) : Int :=
  if n < 2 ^ 31 then (n : Int) else (n : Int) - 2 ^ 32

/-- The 32-bit pattern of a C `int`. -/
def of_s32 (i : Int) : Nat :=
  (i % 2 ^ 32).toNat

/-- Read `n` bytes at offset `off` of a buffer: `none` when the read would leave the
buffer (undefined behaviour in C). -/
def read (buf : List Byte) (off n : Nat) : Option (List Byte) :=
  if off + n ≤ buf.length then some ((buf.drop off).take n) else none

/-- Fixed header of an event, `struct fanotify_event_metadata` of `<linux/fanotify.h>`:
`__u32 event_len; __u8 vers; __u8 reserved; __u16 metadata_len; __aligned_u64 mask;
__s32 fd; __s32 pid;` (offsets 0, 4, 5, 6, 8, 16, 20). -/
structure fanotify_event_metadata where
  event_len : Nat
  vers : Nat
  reserved : Nat
  metadata_len : Nat
  mask : Nat
  fd : Int
  pid : Int
  deriving DecidableEq, Repr

/-- The Python object `fanotify.EventMetadata` (fanotify.c:53-57): the header struct and
the `data` bytes object. -/
structure fanotify_EventMetadata where
  metadata : fanotify_event_metadata
  data : List Byte
  deriving DecidableEq, Repr

/-- `sizeof(struct fanotify_event_metadata)`, which is also
`#define FAN_EVENT_METADATA_LEN (sizeof(struct fanotify_event_metadata))`. -/
def FAN_EVENT_METADATA_LEN : Nat := 24

/-- `sizeof(struct fanotify_response)`: `__s32 fd; __u32 response;`. -/
def sizeof_fanotify_response : Nat := 8

/-- `#define FAN_ALLOW 0x01` of `<linux/fanotify.h>`. -/
def FAN_ALLOW : Nat := 1

/-- The field read `(meta)->event_len` for `meta` pointing at the start of `buf`:
four bytes at offset 0, `none` if they are not all inside the buffer. -/
def event_len (order : ByteOrder) (buf : List Byte) : Option Nat :=
  (read buf 0 4).map (load_uint order)

/-- The header fields held by the `sizeof(struct fanotify_event_metadata)` bytes `hdr`,
as `memcpy(&self->metadata, event, sizeof(self->metadata))` (fanotify.c:82) stores them
and the member table (fanotify.c:99-118) exposes them. -/
def decode_metadata (order : ByteOrder) (hdr : List Byte) : fanotify_event_metadata where
  event_len := load_uint order ((hdr.drop 0).take 4)
  vers := load_uint order ((hdr.drop 4).take 1)
  reserved := load_uint order ((hdr.drop 5).take 1)
  metadata_len := load_uint order ((hdr.drop 6).take 2)
  mask := load_uint order ((hdr.drop 8).take 8)
  fd := to_s32 (load_uint order ((hdr.drop 16).take 4))
  pid := to_s32 (load_uint order ((hdr.drop 20).take 4))

/-- The macro of `<linux/fanotify.h>`
`#define FAN_EVENT_OK(meta, len) ((long)(len) >= (long)FAN_EVENT_METADATA_LEN &&`
`  (long)(meta)->event_len >= (long)FAN_EVENT_METADATA_LEN &&`
`  (long)(meta)->event_len <= (long)(len))`.
`el` is what reading `(meta)->event_len` gives (`none`: the read is out of bounds); it is
only consulted after the first conjunct holds, as `&&` short-circuits. -/
def FAN_EVENT_OK (el : Option Nat) (len : Int) : Option Bool :=
  if len ≥ (FAN_EVENT_METADATA_LEN : Int) then
    match el with
    | none => none
    | some e =>
      some (decide ((e : Int) ≥ (FAN_EVENT_METADATA_LEN : Int)) && decide ((e : Int) ≤ len))
  else some false

/-- The macro of `<linux/fanotify.h>`
`#define FAN_EVENT_NEXT(meta, len) ((len) -= (meta)->event_len,`
`  (struct fanotify_event_metadata*)(((char *)(meta)) + (meta)->event_len))`.
`meta` is the pointer as a byte offset; the result is the new pointer and the updated
`len`. -/
def FAN_EVENT_NEXT (el : Option Nat) (meta : Nat) (len : Int) : Option (Nat × Int) :=
  el.map fun e => (meta + e, len - (e : Int))

/-- `Py_BuildValue("y#", ptr, size)`: a new bytes object holding the `size` bytes at
offset `ptr` of `buf`.  A negative size makes `PyBytes_FromStringAndSize` fail with
`SystemError`. -/
def Py_BuildValue_bytes (buf : List Byte) (ptr : Nat) (size : Int) : PyResult (List Byte) :=
  if size < 0 then .raise .SystemError
  else
    match read buf ptr size.toNat with
    | some bs => .ok bs
    | none => .undefined

/-- `size_t data_size = buf_size - sizeof(*event);` (fanotify.c:84), computed in
`size_t`, that is modulo `2 ^ 64`. -/
def data_size (buf_size : Int) : Nat :=
  ((buf_size - (FAN_EVENT_METADATA_LEN : Int)) % 2 ^ 64).toNat

/-- A `size_t` passed where `Py_BuildValue` expects a `Py_ssize_t`. -/
def to_ssize_t (n : Nat) : Int :=
  if n < 2 ^ 63 then (n : Int) else (n : Int) - 2 ^ 64

/-- `EventMetadata_init` (fanotify.c:71-92) on the bytes object `buf`: copy the header
out of the first `sizeof(self->metadata)` bytes, then take the `data_size` bytes that
follow it as `data`. -/
def EventMetadata_init (order : ByteOrder) (buf : List Byte) :
    PyResult fanotify_EventMetadata :=
  let buf_size : Int := buf.length
  match read buf 0 FAN_EVENT_METADATA_LEN with
  | none => .undefined
  | some hdr =>
    match Py_BuildValue_bytes buf FAN_EVENT_METADATA_LEN (to_ssize_t (data_size buf_size)) with
    | .ok data => .ok { metadata := decode_metadata order hdr, data := data }
    | .raise e => .raise e
    | .undefined => .undefined

/-- `fanotify_EventOk` (fanotify.c:327-343). -/
def fanotify_EventOk (order : ByteOrder) (buf : List Byte) : PyResult Bool :=
  let buf_size : Int := buf.length
  match FAN_EVENT_OK (event_len order buf) buf_size with
  | none => .undefined
  | some true => .ok true
  | some false => .ok false

/-- `fanotify_EventNext` (fanotify.c:277-311). -/
def fanotify_EventNext (order : ByteOrder) (buf : List Byte) :
    PyResult (List Byte × fanotify_EventMetadata) :=
  let buf_size : Int := buf.length
  match FAN_EVENT_OK (event_len order buf) buf_size with
  | none => .undefined
  | some false => .raise .FanotifyError
  | some true =>
    match FAN_EVENT_NEXT (event_len order buf) 0 buf_size with
    | none => .undefined
    | some (new_buf, new_buf_size) =>
      match Py_BuildValue_bytes buf 0 (buf_size - new_buf_size) with
      | .raise e => .raise e
      | .undefined => .undefined
      | .ok event_metadata_args =>
        match EventMetadata_init order event_metadata_args with
        | .raise e => .raise e
        | .undefined => .undefined
        | .ok event_metadata =>
          match Py_BuildValue_bytes buf new_buf new_buf_size with
          | .raise e => .raise e
          | .undefined => .undefined
          | .ok rest => .ok (rest, event_metadata)

/-- `fanotify_Response` (fanotify.c:365-378) on the Python integers `fd` and `response`.
Format `"i"` rejects an `fd` outside the range of `int` with `OverflowError`; format
`"I"` converts `response` without overflow checking.  The result is the object
representation of `struct fanotify_response fanotify_response = {fd, response}`. -/
def fanotify_Response (order : ByteOrder) (fd response : Int) : PyResult (List Byte) :=
  if fd < -(2 ^ 31) ∨ fd ≥ 2 ^ 31 then .raise .OverflowError
  else
    let response32 : Nat := (response % 2 ^ 32).toNat
    .ok (store_uint order 4 (of_s32 fd) ++ store_uint order 4 response32)

/-- The buffer left after `n` successful `fanotify_EventNext` calls made in a row, each on
the remainder returned by the previous one; `none` as soon as one of them fails. -/
def remainder_after (order : ByteOrder) : Nat → List Byte → Option (List Byte)
  | 0, buf => some buf
  | n + 1, buf =>
    match fanotify_EventNext order buf with
    | .ok (rest, _) => remainder_after order n rest
    | _ => none

/-- A little-endian event record for concrete evaluations: a 24-byte header with the
given `event_len` (one byte suffices) and `metadata_len`, `vers = 3`, every other field
zero, followed by `payload`. -/
def record_le (el : Byte) (ml : Nat) (payload : List Byte) : List Byte :=
  [el, 0, 0, 0, 3, 0] ++ store_le 2 ml ++ List.replicate 16 0 ++ payload

/-- Rounding `n` up to a multiple of `a`, the step the specification describes for the
next offset ("rounded up to the platform's required alignment"); the source has no such
step, the definition only serves to state the comparison. -/
def spec_align_up (a n : Nat) : Nat :=
  (n + a - 1) / a * a

/-! ## Auxiliary facts -/

theorem load_uint_lt (order : ByteOrder) (bs : List Byte) :
    load_uint order bs < 256 ^ bs.length := by
  cases order
  · induction bs with
    | nil => simp [load_uint]
    | cons b bs ih =>
      have hb := b.isLt
      simp only [load_uint, List.foldr_cons, List.length_cons] at ih ⊢
      rw [pow_succ]
      omega
  · suffices h : ∀ (acc k : Nat), acc < 256 ^ k →
        bs.foldl (fun acc b => 256 * acc + b.val) acc < 256 ^ (k + bs.length) by
      simpa [load_uint] using h 0 0 (by simp)
    induction bs with
    | nil => intro acc k h; simpa using h
    | cons b bs ih =>
      intro acc k h
      have hb := b.isLt
      have h2 : 256 * acc + b.val < 256 ^ (k + 1) := by
        rw [pow_succ]; omega
      have := ih (256 * acc + b.val) (k + 1) h2
      simpa [List.foldl_cons, List.length_cons, Nat.add_assoc, Nat.add_comm 1] using this

theorem read_eq_some (buf : List Byte) (off n : Nat) (h : off + n ≤ buf.length) :
    read buf off n = some ((buf.drop off).take n) := by
  simp [read, h]

theorem read_eq_none (buf : List Byte) (off n : Nat) (h : buf.length < off + n) :
    read buf off n = none := by
  simp [read]; omega

theorem event_len_eq_some (order : ByteOrder) (buf : List Byte) (h : 4 ≤ buf.length) :
    event_len order buf = some (load_uint order (buf.take 4)) := by
  simp [event_len, read, h]

theorem load_uint_take4_lt (order : ByteOrder) (buf : List Byte) :
    load_uint order (buf.take 4) < 2 ^ 32 := by
  have h := load_uint_lt order (buf.take 4)
  have h2 : (buf.take 4).length ≤ 4 := by simp
  calc load_uint order (buf.take 4) < 256 ^ (buf.take 4).length := h
    _ ≤ 256 ^ 4 := Nat.pow_le_pow_right (by norm_num) h2
    _ = 2 ^ 32 := by norm_num

theorem data_size_eq (n : Nat) (h24 : 24 ≤ n) (h : n < 2 ^ 63) :
    to_ssize_t (data_size (n : Int)) = ((n - 24 : Nat) : Int) := by
  have h1 : data_size (n : Int) = n - 24 := by
    unfold data_size FAN_EVENT_METADATA_LEN
    have : ((n : Int) - ((24 : Nat) : Int)) % 2 ^ 64 = ((n - 24 : Nat) : Int) := by
      rw [Int.emod_eq_of_lt] <;> omega
    rw [this]; simp
  rw [h1]
  unfold to_ssize_t
  rw [if_pos (by omega)]

theorem FAN_EVENT_OK_short (el : Option Nat) (len : Int)
    (h : len < (FAN_EVENT_METADATA_LEN : Int)) : FAN_EVENT_OK el len = some false := by
  unfold FAN_EVENT_OK
  rw [if_neg (by omega)]

theorem FAN_EVENT_OK_buf (order : ByteOrder) (buf : List Byte) :
    FAN_EVENT_OK (event_len order buf) (buf.length : Int) =
      some (decide (24 ≤ buf.length ∧ 24 ≤ load_uint order (buf.take 4) ∧
        load_uint order (buf.take 4) ≤ buf.length)) := by
  by_cases h : 24 ≤ buf.length
  · rw [event_len_eq_some order buf (by omega)]
    unfold FAN_EVENT_OK FAN_EVENT_METADATA_LEN
    rw [if_pos (by omega)]
    simp only [Option.some.injEq]
    rw [Bool.eq_iff_iff]
    simp only [Bool.and_eq_true, decide_eq_true_eq]
    omega
  · rw [FAN_EVENT_OK_short _ _ (by unfold FAN_EVENT_METADATA_LEN; omega)]
    simp [h]

/-- What `fanotify_EventOk` computes, in closed form. -/
theorem EventOk_eq (order : ByteOrder) (buf : List Byte) :
    fanotify_EventOk order buf =
      .ok (decide (24 ≤ buf.length ∧ 24 ≤ load_uint order (buf.take 4) ∧
        load_uint order (buf.take 4) ≤ buf.length)) := by
  unfold fanotify_EventOk
  simp only [FAN_EVENT_OK_buf]
  split <;> simp_all

/-- `fanotify_EventNext` on a buffer that fails the `FAN_EVENT_OK` test. -/
theorem EventNext_not_ok (order : ByteOrder) (buf : List Byte)
    (h : ¬ (24 ≤ buf.length ∧ 24 ≤ load_uint order (buf.take 4) ∧
        load_uint order (buf.take 4) ≤ buf.length)) :
    fanotify_EventNext order buf = .raise .FanotifyError := by
  unfold fanotify_EventNext
  simp only [FAN_EVENT_OK_buf, h, decide_False]

/-- `EventMetadata_init` on a buffer that holds at least a whole header. -/
theorem EventMetadata_init_eq (order : ByteOrder) (buf : List Byte)
    (h24 : 24 ≤ buf.length) (hlen : buf.length < 2 ^ 63) :
    EventMetadata_init order buf =
      .ok { metadata := decode_metadata order (buf.take 24), data := buf.drop 24 } := by
  unfold EventMetadata_init
  simp only [FAN_EVENT_METADATA_LEN]
  rw [read_eq_some buf 0 24 (by omega)]
  simp only [List.drop_zero]
  rw [data_size_eq buf.length h24 hlen]
  unfold Py_BuildValue_bytes
  rw [if_neg (by omega)]
  simp only [Int.toNat_ofNat]
  rw [read_eq_some buf 24 (buf.length - 24) (by omega)]
  simp only [PyResult.ok.injEq, fanotify_EventMetadata.mk.injEq, true_and]
  apply List.take_of_length_le
  simp

/-- `fanotify_EventNext` on a buffer that passes the `FAN_EVENT_OK` test. -/
theorem EventNext_ok (order : ByteOrder) (buf : List Byte)
    (h24 : 24 ≤ buf.length) (hlo : 24 ≤ load_uint order (buf.take 4))
    (hhi : load_uint order (buf.take 4) ≤ buf.length) :
    fanotify_EventNext order buf =
      .ok (buf.drop (load_uint order (buf.take 4)),
        { metadata := decode_metadata order (buf.take 24),
          data := (buf.take (load_uint order (buf.take 4))).drop 24 }) := by
  have h32 := load_uint_take4_lt order buf
  generalize hel : load_uint order (buf.take 4) = el at *
  unfold fanotify_EventNext
  simp only [FAN_EVENT_OK_buf, hel, h24, hlo, hhi, and_self, decide_True]
  rw [event_len_eq_some order buf (by omega), hel]
  simp only [FAN_EVENT_NEXT, Option.map_some', Nat.zero_add]
  have e1 : Py_BuildValue_bytes buf 0 ((buf.length : Int) - ((buf.length : Int) - (el : Int)))
      = .ok (buf.take el) := by
    unfold Py_BuildValue_bytes
    rw [if_neg (by omega)]
    have : ((buf.length : Int) - ((buf.length : Int) - (el : Int))).toNat = el := by omega
    rw [this, read_eq_some buf 0 el (by omega)]
    simp
  have e2 : Py_BuildValue_bytes buf el ((buf.length : Int) - (el : Int))
      = .ok (buf.drop el) := by
    unfold Py_BuildValue_bytes
    rw [if_neg (by omega)]
    have : ((buf.length : Int) - (el : Int)).toNat = buf.length - el := by omega
    rw [this, read_eq_some buf el (buf.length - el) (by omega)]
    simp only [PyResult.ok.injEq]
    apply List.take_of_length_le
    simp
  have hl : (buf.take el).length = el := by simp; omega
  have e3 := EventMetadata_init_eq order (buf.take el) (by omega)
    (by rw [hl]; exact lt_trans h32 (by norm_num))
  rw [List.take_take, Nat.min_eq_left hlo] at e3
  simp only [e1, e3, e2]

theorem store_le_length (width n : Nat) : (store_le width n).length = width := by
  induction width generalizing n with
  | zero => rfl
  | succ w ih => simp [store_le, ih]

theorem load_le_store_le (width n : Nat) :
    load_uint .little (store_le width n) = n % 256 ^ width := by
  induction width generalizing n with
  | zero => simp [store_le, load_uint, Nat.mod_one]
  | succ w ih =>
    have ih2 := ih (n / 256)
    simp only [load_uint] at ih2
    simp only [store_le, load_uint, List.foldr_cons, ih2, Fin.ofNat]
    rw [pow_succ', Nat.mod_mul, Nat.mod_mod]

theorem load_big_reverse (bs : List Byte) :
    load_uint .big bs.reverse = load_uint .little bs := by
  simp only [load_uint, List.foldl_reverse]
  congr 1
  funext b acc
  omega

/-- Storing an unsigned integer in `width` bytes and loading it back gives the integer
modulo `256 ^ width`, in either byte order. -/
theorem load_store_uint (order : ByteOrder) (width n : Nat) :
    load_uint order (store_uint order width n) = n % 256 ^ width := by
  cases order
  · exact load_le_store_le width n
  · simp only [store_uint, load_big_reverse]
    exact load_le_store_le width n

theorem store_uint_length (order : ByteOrder) (width n : Nat) :
    (store_uint order width n).length = width := by
  cases order <;> simp [store_uint, store_le_length]

theorem to_s32_of_s32 (i : Int) (hlo : -(2 ^ 31) ≤ i) (hhi : i < 2 ^ 31) :
    to_s32 (of_s32 i % 256 ^ 4) = i := by
  unfold to_s32 of_s32
  have h1 : (i % 2 ^ 32).toNat % 256 ^ 4 = (i % 2 ^ 32).toNat := by
    apply Nat.mod_eq_of_lt
    omega
  rw [h1]
  split <;> omega

/-- Every successful `fanotify_EventNext` call, read backwards. -/
theorem EventNext_inv (order : ByteOrder) (buf r : List Byte) (e : fanotify_EventMetadata)
    (h : fanotify_EventNext order buf = .ok (r, e)) :
    24 ≤ buf.length ∧ 24 ≤ load_uint order (buf.take 4) ∧
      load_uint order (buf.take 4) ≤ buf.length ∧
      r = buf.drop (load_uint order (buf.take 4)) ∧
      e = { metadata := decode_metadata order (buf.take 24),
            data := (buf.take (load_uint order (buf.take 4))).drop 24 } := by
  by_cases hok : 24 ≤ buf.length ∧ 24 ≤ load_uint order (buf.take 4) ∧
      load_uint order (buf.take 4) ≤ buf.length
  · obtain ⟨h24, hlo, hhi⟩ := hok
    rw [EventNext_ok order buf h24 hlo hhi] at h
    simp only [PyResult.ok.injEq, Prod.mk.injEq] at h
    exact ⟨h24, hlo, hhi, h.1.symm, h.2.symm⟩
  · rw [EventNext_not_ok order buf hok] at h
    cases h

theorem decode_metadata_event_len (order : ByteOrder) (buf : List Byte) :
    (decode_metadata order (buf.take 24)).event_len = load_uint order (buf.take 4) := by
  simp [decode_metadata, List.take_take]

/-! ## The claims -/

/-- C1, as stated, fails: on the 24-byte little-endian buffer whose `event_len` field is 1
the buffer is at least a header long and `0 < event_len ≤ len(buf)`, yet
`fanotify_EventOk` returns `False`. -/
theorem C1_counterexample :
    fanotify_EventOk .little (record_le 1 24 []) = .ok false ∧
      FAN_EVENT_METADATA_LEN ≤ (record_le 1 24 []).length ∧
      event_len .little (record_le 1 24 []) = some 1 ∧
      0 < 1 ∧ 1 ≤ (record_le 1 24 []).length := by
  decide

/-- C1, amended: for every byte buffer `buf`, `fanotify_EventOk` returns `True` or
`False`, and it returns `True` if and only if `len(buf)` is at least the size of the fixed
header (24 bytes) and the `event_len` field read from the start of `buf` satisfies
`24 ≤ event_len ≤ len(buf)` (the lower bound is the header size, not zero). -/
theorem C1_EventOk_iff (order : ByteOrder) (buf : List Byte) :
    (fanotify_EventOk order buf = .ok true ∨ fanotify_EventOk order buf = .ok false) ∧
    (fanotify_EventOk order buf = .ok true ↔
      FAN_EVENT_METADATA_LEN ≤ buf.length ∧
        ∃ el, event_len order buf = some el ∧
          FAN_EVENT_METADATA_LEN ≤ el ∧ el ≤ buf.length) := by
  rw [EventOk_eq]
  simp only [FAN_EVENT_METADATA_LEN, PyResult.ok.injEq, decide_eq_true_eq, decide_eq_false_iff_not]
  refine ⟨em _, ?_⟩
  constructor
  · rintro ⟨h24, hlo, hhi⟩
    exact ⟨h24, _, event_len_eq_some order buf (by omega), hlo, hhi⟩
  · rintro ⟨h24, el, hel, hlo, hhi⟩
    rw [event_len_eq_some order buf (by omega)] at hel
    cases hel
    exact ⟨h24, hlo, hhi⟩

/-- C2: for every byte buffer `buf`, `fanotify_EventNext` fails with `FanotifyError`
exactly when `fanotify_EventOk` returns `False`, and returns a `(remaining, event)` pair
exactly when `fanotify_EventOk` returns `True`. -/
theorem C2_EventNext_iff_EventOk (order : ByteOrder) (buf : List Byte) :
    (fanotify_EventNext order buf = .raise .FanotifyError ↔
      fanotify_EventOk order buf = .ok false) ∧
    ((∃ r e, fanotify_EventNext order buf = .ok (r, e)) ↔
      fanotify_EventOk order buf = .ok true) := by
  rw [EventOk_eq]
  by_cases hok : 24 ≤ buf.length ∧ 24 ≤ load_uint order (buf.take 4) ∧
      load_uint order (buf.take 4) ≤ buf.length
  · rw [EventNext_ok order buf hok.1 hok.2.1 hok.2.2]
    simp [hok]
  · rw [EventNext_not_ok order buf hok]
    simp [hok]

/-- C3, as stated, fails: on a 32-byte little-endian buffer whose first record has
`event_len = 25`, `fanotify_EventNext` succeeds and returns the 7 bytes from offset 25 on,
whereas the suffix at `event_len` rounded up to a multiple of 8 (offset 32) is empty. -/
theorem C3_counterexample :
    fanotify_EventNext .little (record_le 25 24 [1, 2, 3, 4, 5, 6, 7, 8]) =
        .ok ([2, 3, 4, 5, 6, 7, 8], ⟨⟨25, 3, 0, 24, 0, 0, 0⟩, [1]⟩) ∧
      (record_le 25 24 [1, 2, 3, 4, 5, 6, 7, 8]).drop (spec_align_up 8 25) = [] := by
  decide

/-- C3, amended: for every buffer `buf` on which `fanotify_EventNext` succeeds, the
returned remaining buffer is the suffix of `buf` starting at offset `event_len` exactly
(the record's end, with no rounding up to an alignment), possibly empty; `event_len` is
the field read from the start of `buf`, the same value the yielded event reports.  When
`event_len` is a multiple of 8 this is also the suffix at the rounded-up offset. -/
theorem C3_remaining_is_suffix (order : ByteOrder) (buf r : List Byte)
    (e : fanotify_EventMetadata) (h : fanotify_EventNext order buf = .ok (r, e)) :
    event_len order buf = some e.metadata.event_len ∧
      r = buf.drop e.metadata.event_len ∧
      (e.metadata.event_len % 8 = 0 → r = buf.drop (spec_align_up 8 e.metadata.event_len)) := by
  obtain ⟨h24, _, _, hr, he⟩ := EventNext_inv order buf r e h
  subst he
  simp only [decode_metadata_event_len]
  refine ⟨event_len_eq_some order buf (by omega), hr, ?_⟩
  intro h8
  have : spec_align_up 8 (load_uint order (buf.take 4)) = load_uint order (buf.take 4) := by
    unfold spec_align_up
    omega
  rw [this]
  exact hr

/-- C3 witness: the amended statement applied to a 32-byte record with 8 payload bytes
followed by a second, header-only record. -/
theorem C3_witness :
    fanotify_EventNext .little (record_le 32 24 [1, 2, 3, 4, 5, 6, 7, 8] ++ record_le 24 24 []) =
        .ok (record_le 24 24 [], ⟨⟨32, 3, 0, 24, 0, 0, 0⟩, [1, 2, 3, 4, 5, 6, 7, 8]⟩) ∧
      (event_len .little (record_le 32 24 [1, 2, 3, 4, 5, 6, 7, 8] ++ record_le 24 24 []) =
          some 32 ∧
        record_le 24 24 [] =
          (record_le 32 24 [1, 2, 3, 4, 5, 6, 7, 8] ++ record_le 24 24 []).drop 32 ∧
        (32 % 8 = 0 → record_le 24 24 [] =
          (record_le 32 24 [1, 2, 3, 4, 5, 6, 7, 8] ++ record_le 24 24 []).drop
            (spec_align_up 8 32))) :=
  ⟨by decide,
    C3_remaining_is_suffix .little
      (record_le 32 24 [1, 2, 3, 4, 5, 6, 7, 8] ++ record_le 24 24 []) (record_le 24 24 [])
      ⟨⟨32, 3, 0, 24, 0, 0, 0⟩, [1, 2, 3, 4, 5, 6, 7, 8]⟩ (by decide)⟩

/-- C4, as stated, fails: on a 28-byte little-endian record with `event_len = 28` and
`metadata_len = 16` the yielded `data` has 4 bytes, not `event_len − metadata_len = 12`. -/
theorem C4_counterexample :
    fanotify_EventNext .little (record_le 28 16 [9, 9, 9, 9]) =
        .ok ([], ⟨⟨28, 3, 0, 16, 0, 0, 0⟩, [9, 9, 9, 9]⟩) ∧
      ([9, 9, 9, 9] : List Byte).length ≠ 28 - 16 := by
  decide

/-- C4, amended: for every buffer `buf` on which `fanotify_EventNext` succeeds, the
yielded event's `data` has length exactly `event_len − 24`, the size of the fixed header
being subtracted whatever the `metadata_len` field says (so the length is
`event_len − metadata_len` whenever `metadata_len = 24`), and its contents are the bytes
of `buf` from offset 24 up to offset `event_len`, verbatim. -/
theorem C4_data_payload (order : ByteOrder) (buf r : List Byte)
    (e : fanotify_EventMetadata) (h : fanotify_EventNext order buf = .ok (r, e)) :
    FAN_EVENT_METADATA_LEN ≤ e.metadata.event_len ∧
      e.data.length = e.metadata.event_len - FAN_EVENT_METADATA_LEN ∧
      e.data = (buf.drop FAN_EVENT_METADATA_LEN).take
        (e.metadata.event_len - FAN_EVENT_METADATA_LEN) ∧
      (e.metadata.metadata_len = FAN_EVENT_METADATA_LEN →
        e.data.length = e.metadata.event_len - e.metadata.metadata_len) := by
  obtain ⟨h24, hlo, hhi, _, he⟩ := EventNext_inv order buf r e h
  subst he
  simp only [decode_metadata_event_len, FAN_EVENT_METADATA_LEN]
  have hlen : ((buf.take (load_uint order (buf.take 4))).drop 24).length =
      load_uint order (buf.take 4) - 24 := by
    simp only [List.length_drop, List.length_take]
    omega
  refine ⟨hlo, hlen, ?_, ?_⟩
  · rw [List.drop_take]
  · intro hm
    rw [hm, hlen]

/-- C4 witness: the amended statement applied to a 28-byte record with 4 payload bytes. -/
theorem C4_witness :
    fanotify_EventNext .little (record_le 28 24 [9, 8, 7, 6]) =
        .ok ([], ⟨⟨28, 3, 0, 24, 0, 0, 0⟩, [9, 8, 7, 6]⟩) ∧
      (FAN_EVENT_METADATA_LEN ≤ 28 ∧
        ([9, 8, 7, 6] : List Byte).length = 28 - FAN_EVENT_METADATA_LEN ∧
        ([9, 8, 7, 6] : List Byte) =
          ((record_le 28 24 [9, 8, 7, 6]).drop FAN_EVENT_METADATA_LEN).take
            (28 - FAN_EVENT_METADATA_LEN) ∧
        ((24 : Nat) = FAN_EVENT_METADATA_LEN →
          ([9, 8, 7, 6] : List Byte).length = 28 - 24)) :=
  ⟨by decide,
    C4_data_payload .little (record_le 28 24 [9, 8, 7, 6]) []
      ⟨⟨28, 3, 0, 24, 0, 0, 0⟩, [9, 8, 7, 6]⟩ (by decide)⟩

/-- C5: for every signed 32-bit `fd` and unsigned 32-bit `response`,
`fanotify_Response` succeeds and returns exactly 8 bytes, the 4 native-order bytes of `fd`
followed by the 4 native-order bytes of `response`; reading the first four back as a
native `i32` and the last four as a native `u32` gives `(fd, response)` again. -/
theorem C5_Response_roundtrip (order : ByteOrder) (fd response : Int)
    (hfd : -(2 ^ 31) ≤ fd ∧ fd < 2 ^ 31) (hresp : 0 ≤ response ∧ response < 2 ^ 32) :
    ∃ bs, fanotify_Response order fd response = .ok bs ∧
      bs.length = sizeof_fanotify_response ∧
      bs = store_uint order 4 (of_s32 fd) ++ store_uint order 4 response.toNat ∧
      to_s32 (load_uint order (bs.take 4)) = fd ∧
      (load_uint order ((bs.drop 4).take 4) : Int) = response := by
  have hr32 : (response % 2 ^ 32).toNat = response.toNat := by
    rw [Int.emod_eq_of_lt hresp.1 hresp.2]
  refine ⟨store_uint order 4 (of_s32 fd) ++ store_uint order 4 response.toNat, ?_, ?_, rfl, ?_, ?_⟩
  · unfold fanotify_Response
    rw [if_neg (by omega)]
    simp only [hr32]
  · simp [store_uint_length, sizeof_fanotify_response]
  · rw [List.take_left' (store_uint_length order 4 _), load_store_uint]
    exact to_s32_of_s32 fd hfd.1 hfd.2
  · rw [List.drop_left' (store_uint_length order 4 _),
      List.take_of_length_le (by rw [store_uint_length]), load_store_uint]
    have : response.toNat % 256 ^ 4 = response.toNat := by
      apply Nat.mod_eq_of_lt
      omega
    rw [this]
    omega

/-- C5 witness: the round trip for `fd = 7` and the verdict `FAN_ALLOW`, little-endian:
the eight bytes are `07 00 00 00 01 00 00 00`. -/
theorem C5_witness :
    fanotify_Response .little 7 FAN_ALLOW = .ok [7, 0, 0, 0, 1, 0, 0, 0] ∧
      ∃ bs, fanotify_Response .little 7 FAN_ALLOW = .ok bs ∧
        bs.length = sizeof_fanotify_response ∧
        bs = store_uint .little 4 (of_s32 7) ++ store_uint .little 4 (FAN_ALLOW : Int).toNat ∧
        to_s32 (load_uint .little (bs.take 4)) = 7 ∧
        (load_uint .little ((bs.drop 4).take 4) : Int) = FAN_ALLOW :=
  ⟨by decide, C5_Response_roundtrip .little 7 FAN_ALLOW (by decide) (by decide)⟩

/-- C6, as stated, fails: the 24-byte little-endian record with `event_len = 24` and
`metadata_len = 1000` is yielded by `fanotify_EventNext`, although its `metadata_len`
exceeds its `event_len`. -/
theorem C6_counterexample :
    fanotify_EventNext .little (record_le 24 1000 []) =
        .ok ([], ⟨⟨24, 3, 0, 1000, 0, 0, 0⟩, []⟩) ∧
      ¬ ((1000 : Nat) ≤ 24) := by
  decide

/-- C6, amended: for every buffer `buf`, any event record yielded by
`fanotify_EventNext` satisfies `24 ≤ event_len` and `event_len ≤ len(buf)`; the
`metadata_len` field is not compared with anything, so nothing is promised about it, and
a record whose `event_len` is below the header size (such as `metadata_len = 1000` with
`event_len = 10`) is rejected with `FanotifyError` because of its `event_len`. -/
theorem C6_yielded_bounds (order : ByteOrder) (buf : List Byte) :
    (∀ r e, fanotify_EventNext order buf = .ok (r, e) →
      FAN_EVENT_METADATA_LEN ≤ e.metadata.event_len ∧ e.metadata.event_len ≤ buf.length) ∧
    (∀ el, event_len order buf = some el → el < FAN_EVENT_METADATA_LEN →
      fanotify_EventNext order buf = .raise .FanotifyError) := by
  constructor
  · intro r e h
    obtain ⟨_, hlo, hhi, _, he⟩ := EventNext_inv order buf r e h
    subst he
    simp only [decode_metadata_event_len, FAN_EVENT_METADATA_LEN]
    exact ⟨hlo, hhi⟩
  · intro el hel hlt
    apply EventNext_not_ok
    rintro ⟨h24, hlo, _⟩
    rw [event_len_eq_some order buf (by omega)] at hel
    cases hel
    simp only [FAN_EVENT_METADATA_LEN] at hlt
    omega

/-- C6 witness: the bounds on a yielded 28-byte record, and the rejection of the
specification's crafted record (`event_len = 10`, `metadata_len = 1000`). -/
theorem C6_witness :
    (FAN_EVENT_METADATA_LEN ≤ 28 ∧ 28 ≤ (record_le 28 24 [9, 8, 7, 6]).length) ∧
      fanotify_EventNext .little (record_le 10 1000 []) = .raise .FanotifyError :=
  ⟨(C6_yielded_bounds .little (record_le 28 24 [9, 8, 7, 6])).1 []
      ⟨⟨28, 3, 0, 24, 0, 0, 0⟩, [9, 8, 7, 6]⟩ (by decide),
    (C6_yielded_bounds .little (record_le 10 1000 [])).2 10 (by decide) (by decide)⟩

/-- C7: for every buffer that is the concatenation `r1 ++ r2` of two well-formed
records (each at least a header long, with its `event_len` field equal to its own length)
that are correctly aligned (lengths multiples of 8), the first `fanotify_EventNext` call
yields the event decoded from `r1` with remaining buffer `r2`, the second call, on that
remainder, yields the event decoded from `r2` with an empty remaining buffer, and
`fanotify_EventOk` of the empty remainder is `False`.  The alignment hypotheses are part
of the claim; the proof has no use for them. -/
theorem C7_two_records (order : ByteOrder) (r1 r2 : List Byte)
    (h1 : FAN_EVENT_METADATA_LEN ≤ r1.length) (hl1 : event_len order r1 = some r1.length)
    (h2 : FAN_EVENT_METADATA_LEN ≤ r2.length) (hl2 : event_len order r2 = some r2.length)
    (_ha1 : r1.length % 8 = 0) (_ha2 : r2.length % 8 = 0) :
    ∃ ev1 ev2,
      EventMetadata_init order r1 = .ok ev1 ∧
      ev1 = { metadata := decode_metadata order (r1.take 24), data := r1.drop 24 } ∧
      EventMetadata_init order r2 = .ok ev2 ∧
      ev2 = { metadata := decode_metadata order (r2.take 24), data := r2.drop 24 } ∧
      fanotify_EventNext order (r1 ++ r2) = .ok (r2, ev1) ∧
      fanotify_EventNext order r2 = .ok ([], ev2) ∧
      fanotify_EventOk order [] = .ok false := by
  simp only [FAN_EVENT_METADATA_LEN] at h1 h2
  rw [event_len_eq_some order r1 (by omega)] at hl1
  rw [event_len_eq_some order r2 (by omega)] at hl2
  simp only [Option.some.injEq] at hl1 hl2
  have b1 := load_uint_take4_lt order r1
  have b2 := load_uint_take4_lt order r2
  have t4 : (r1 ++ r2).take 4 = r1.take 4 := List.take_append_of_le_length (by omega)
  have t24 : (r1 ++ r2).take 24 = r1.take 24 := List.take_append_of_le_length (by omega)
  refine ⟨_, _, EventMetadata_init_eq order r1 h1 (by omega), rfl,
    EventMetadata_init_eq order r2 h2 (by omega), rfl, ?_, ?_, ?_⟩
  · rw [EventNext_ok order (r1 ++ r2) (by simp; omega) (by rw [t4, hl1]; exact h1)
      (by rw [t4, hl1]; simp)]
    rw [t4, t24, hl1]
    simp
  · rw [EventNext_ok order r2 h2 (by rw [hl2]; exact h2) (by rw [hl2])]
    rw [hl2]
    simp
  · rw [EventOk_eq]
    simp

/-- C7 witness: a header-only record followed by a 32-byte record with 8 payload bytes. -/
theorem C7_witness :
    (FAN_EVENT_METADATA_LEN ≤ (record_le 24 24 []).length ∧
      event_len .little (record_le 24 24 []) = some (record_le 24 24 []).length ∧
      FAN_EVENT_METADATA_LEN ≤ (record_le 32 24 [1, 2, 3, 4, 5, 6, 7, 8]).length ∧
      event_len .little (record_le 32 24 [1, 2, 3, 4, 5, 6, 7, 8]) =
        some (record_le 32 24 [1, 2, 3, 4, 5, 6, 7, 8]).length) ∧
    ∃ ev1 ev2,
      EventMetadata_init .little (record_le 24 24 []) = .ok ev1 ∧
      ev1 = { metadata := decode_metadata .little ((record_le 24 24 []).take 24),
              data := (record_le 24 24 []).drop 24 } ∧
      EventMetadata_init .little (record_le 32 24 [1, 2, 3, 4, 5, 6, 7, 8]) = .ok ev2 ∧
      ev2 = { metadata :=
                decode_metadata .little ((record_le 32 24 [1, 2, 3, 4, 5, 6, 7, 8]).take 24),
              data := (record_le 32 24 [1, 2, 3, 4, 5, 6, 7, 8]).drop 24 } ∧
      fanotify_EventNext .little
          (record_le 24 24 [] ++ record_le 32 24 [1, 2, 3, 4, 5, 6, 7, 8]) =
        .ok (record_le 32 24 [1, 2, 3, 4, 5, 6, 7, 8], ev1) ∧
      fanotify_EventNext .little (record_le 32 24 [1, 2, 3, 4, 5, 6, 7, 8]) = .ok ([], ev2) ∧
      fanotify_EventOk .little [] = .ok false :=
  ⟨by decide,
    C7_two_records .little (record_le 24 24 []) (record_le 32 24 [1, 2, 3, 4, 5, 6, 7, 8])
      (by decide) (by decide) (by decide) (by decide) (by decide) (by decide)⟩

/-- C8: for every buffer `b`, the empty one included, shorter than the fixed event
header (24 bytes), `fanotify_EventOk` returns `False` and `fanotify_EventNext` fails with
`FanotifyError`; no header field of `b` is read: `FAN_EVENT_OK` answers `False` from the
length alone, whatever reading `event_len` would have given, an out-of-bounds read
included. -/
theorem C8_short_buffer (order : ByteOrder) (b : List Byte)
    (h : b.length < FAN_EVENT_METADATA_LEN) :
    fanotify_EventOk order b = .ok false ∧
      fanotify_EventNext order b = .raise .FanotifyError ∧
      ∀ el : Option Nat, FAN_EVENT_OK el (b.length : Int) = some false := by
  simp only [FAN_EVENT_METADATA_LEN] at h
  refine ⟨?_, ?_, ?_⟩
  · rw [EventOk_eq]
    simp only [PyResult.ok.injEq, decide_eq_false_iff_not]
    omega
  · apply EventNext_not_ok
    omega
  · intro el
    apply FAN_EVENT_OK_short
    simp only [FAN_EVENT_METADATA_LEN]
    omega

/-- C8 witness: the empty buffer, where reading `event_len` would be out of bounds. -/
theorem C8_witness :
    event_len .little [] = none ∧
      (fanotify_EventOk .little [] = .ok false ∧
        fanotify_EventNext .little [] = .raise .FanotifyError ∧
        ∀ el : Option Nat, FAN_EVENT_OK el (([] : List Byte).length : Int) = some false) :=
  ⟨by decide, C8_short_buffer .little [] (by decide)⟩

/-- C9: for every buffer `buf` on which `fanotify_EventNext` succeeds the returned
remaining buffer is strictly shorter than `buf`; hence, starting from any buffer,
calling `fanotify_EventNext` on the successive remainders reaches a failing call (one
that raises `FanotifyError`) after `n` successful calls for some `n ≤ len(buf)`. -/
theorem C9_EventNext_terminates (order : ByteOrder) (buf : List Byte) :
    (∀ r e, fanotify_EventNext order buf = .ok (r, e) → r.length < buf.length) ∧
    ∃ n, n ≤ buf.length ∧ ∃ b, remainder_after order n buf = some b ∧
      fanotify_EventNext order b = .raise .FanotifyError := by
  have hdec : ∀ (c r : List Byte) (e : fanotify_EventMetadata),
      fanotify_EventNext order c = .ok (r, e) → r.length < c.length := by
    intro c r e h
    obtain ⟨_, hlo, hhi, hr, _⟩ := EventNext_inv order c r e h
    rw [hr, List.length_drop]
    omega
  refine ⟨hdec buf, ?_⟩
  suffices hall : ∀ (m : Nat) (c : List Byte), c.length = m →
      ∃ n, n ≤ c.length ∧ ∃ b, remainder_after order n c = some b ∧
        fanotify_EventNext order b = .raise .FanotifyError from hall buf.length buf rfl
  intro m
  induction m using Nat.strong_induction_on with
  | _ m ih =>
    intro c hc
    by_cases hok : 24 ≤ c.length ∧ 24 ≤ load_uint order (c.take 4) ∧
        load_uint order (c.take 4) ≤ c.length
    · have hnext := EventNext_ok order c hok.1 hok.2.1 hok.2.2
      have hlt := hdec c _ _ hnext
      obtain ⟨n, hle, b, hb, hfail⟩ := ih _ (by rw [← hc]; exact hlt) _ rfl
      refine ⟨n + 1, by omega, b, ?_, hfail⟩
      simp only [remainder_after, hnext]
      exact hb
    · exact ⟨0, Nat.zero_le _, c, rfl, EventNext_not_ok order c hok⟩

/-- C9 witness: on a 56-byte buffer holding two records the first call leaves 32 bytes,
and the third call is the failing one. -/
theorem C9_witness :
    (record_le 32 24 [1, 2, 3, 4, 5, 6, 7, 8]).length <
        (record_le 24 24 [] ++ record_le 32 24 [1, 2, 3, 4, 5, 6, 7, 8]).length ∧
      remainder_after .little 2
        (record_le 24 24 [] ++ record_le 32 24 [1, 2, 3, 4, 5, 6, 7, 8]) = some [] :=
  ⟨(C9_EventNext_terminates .little
      (record_le 24 24 [] ++ record_le 32 24 [1, 2, 3, 4, 5, 6, 7, 8])).1
      (record_le 32 24 [1, 2, 3, 4, 5, 6, 7, 8]) ⟨⟨24, 3, 0, 24, 0, 0, 0⟩, []⟩ (by decide),
    by decide⟩

/-- C10: for every buffer `buf` on which `fanotify_EventNext` succeeds, the call
partitions `buf` without loss or overlap: the event is the one `EventMetadata_init`
builds from exactly the first `event_len` bytes of `buf`; the `size_t` subtraction
`event_len − 24` that computes its data size does not wrap (`24 ≤ event_len`, and the
result read as a `Py_ssize_t` is the integer `event_len − 24`); and the 24 header bytes,
then `event.data`, then the returned remaining buffer make up `buf` byte for byte. -/
theorem C10_partition (order : ByteOrder) (buf r : List Byte)
    (e : fanotify_EventMetadata) (h : fanotify_EventNext order buf = .ok (r, e)) :
    EventMetadata_init order (buf.take e.metadata.event_len) = .ok e ∧
      (buf.take e.metadata.event_len).length = e.metadata.event_len ∧
      FAN_EVENT_METADATA_LEN ≤ e.metadata.event_len ∧
      to_ssize_t (data_size (e.metadata.event_len : Int)) =
        (e.metadata.event_len : Int) - (FAN_EVENT_METADATA_LEN : Int) ∧
      buf.take FAN_EVENT_METADATA_LEN ++ e.data ++ r = buf := by
  obtain ⟨h24, hlo, hhi, hr, he⟩ := EventNext_inv order buf r e h
  have h32 := load_uint_take4_lt order buf
  subst he hr
  simp only [decode_metadata_event_len, FAN_EVENT_METADATA_LEN]
  generalize load_uint order (buf.take 4) = el at *
  have hl : (buf.take el).length = el := by simp; omega
  refine ⟨?_, hl, hlo, ?_, ?_⟩
  · rw [EventMetadata_init_eq order (buf.take el) (by omega) (by omega),
      List.take_take, Nat.min_eq_left hlo]
  · rw [data_size_eq el hlo (by omega)]
    omega
  · have e1 : buf.take 24 = (buf.take el).take 24 := by
      rw [List.take_take, Nat.min_eq_left hlo]
    rw [e1, List.take_append_drop, List.take_append_drop]

/-- C10 witness: the partition of a 56-byte buffer into header, data and remainder. -/
theorem C10_witness :
    fanotify_EventNext .little
        (record_le 32 24 [1, 2, 3, 4, 5, 6, 7, 8] ++ record_le 24 24 []) =
      .ok (record_le 24 24 [], ⟨⟨32, 3, 0, 24, 0, 0, 0⟩, [1, 2, 3, 4, 5, 6, 7, 8]⟩) ∧
    (EventMetadata_init .little
        ((record_le 32 24 [1, 2, 3, 4, 5, 6, 7, 8] ++ record_le 24 24 []).take 32) =
        .ok ⟨⟨32, 3, 0, 24, 0, 0, 0⟩, [1, 2, 3, 4, 5, 6, 7, 8]⟩ ∧
      ((record_le 32 24 [1, 2, 3, 4, 5, 6, 7, 8] ++ record_le 24 24 []).take 32).length = 32 ∧
      FAN_EVENT_METADATA_LEN ≤ 32 ∧
      to_ssize_t (data_size ((32 : Nat) : Int)) = ((32 : Nat) : Int) - (FAN_EVENT_METADATA_LEN : Int) ∧
      (record_le 32 24 [1, 2, 3, 4, 5, 6, 7, 8] ++ record_le 24 24 []).take
          FAN_EVENT_METADATA_LEN ++ [1, 2, 3, 4, 5, 6, 7, 8] ++ record_le 24 24 [] =
        record_le 32 24 [1, 2, 3, 4, 5, 6, 7, 8] ++ record_le 24 24 []) :=
  ⟨by decide,
    C10_partition .little (record_le 32 24 [1, 2, 3, 4, 5, 6, 7, 8] ++ record_le 24 24 [])
      (record_le 24 24 []) ⟨⟨32, 3, 0, 24, 0, 0, 0⟩, [1, 2, 3, 4, 5, 6, 7, 8]⟩ (by decide)⟩

end Fanotify
